import Mathlib

/-!
Verification of the query-formatting helpers of `pg-promise`
(`lib/helpers`: `Column`, `ColumnSet`, `TableName`, `update`).

JavaScript values are shallowly embedded as `JsValue`; plain objects are
insertion-ordered association lists.  Callback fields (`init`, `skip`) are
Lean functions taking the source object explicitly.  The external
formatting primitive (`as.format` / `as.name`), which lives outside the
helpers, is modelled from the spec.  Fallible constructors return
`Except String`.
-/

namespace PgHelpers

/-- Shallow embedding of the JavaScript values handled by the helpers.
Objects are insertion-ordered association lists of own enumerable
properties. -/
inductive JsValue where
  | undefined
  | jnull
  | bool (b : Bool)
  | num (n : Int)
  | str (s : String)
  | obj (props : List (String × JsValue))
  | arr (elems : List JsValue)

/-- A plain object: insertion-ordered own enumerable properties. -/
abbrev JsObj := List (String × JsValue)

/-- Property lookup on a plain object (JavaScript `obj[name]` / `name in obj`
for own properties). -/
def lookupProp (o : JsObj) (k : String) : Option JsValue :=
  o.lookup k

/-- JavaScript property assignment `target[name] = v` on an association
list: overwrites in place when the key exists, appends otherwise. -/
def setProp (o : JsObj) (k : String) (v : JsValue) : JsObj :=
  if o.any (fun p => p.1 == k) then
    o.map (fun p => if p.1 == k then (k, v) else p)
  else o ++ [(k, v)]

/-- JavaScript truthiness of an embedded value. -/
def jsTruthy (v : JsValue) : Bool :=
  match v with
  | .undefined => false
  | .jnull => false
  | .bool b => b
  | .num n => n != 0
  | .str s => s != ""
  | .obj _ => true
  | .arr _ => true

/-- `utils.isNull`: the value is `null` or `undefined`. -/
def isNullJ (v : JsValue) : Bool :=
  match v with
  | .jnull => true
  | .undefined => true
  | _ => false

/-- The value is a truthy `typeof === 'object'` value, i.e. a non-null
object or array. -/
def isNonNullObject (v : JsValue) : Bool :=
  match v with
  | .obj _ => true
  | .arr _ => true
  | _ => false

/-- Modelled from the spec (`utils.isText` is outside the helpers sources):
the value is a non-empty text string. -/
def isText (v : JsValue) : Bool :=
  match v with
  | .str s => s != ""
  | _ => false

/-- A non-empty string value viewed as `Option String`. -/
def asTextOpt (v : JsValue) : Option String :=
  match v with
  | .str s => if s = "" then none else some s
  | _ => none

/-- JavaScript `a || b` on an optional string (absent and `""` are falsy). -/
def jsOrS (o : Option String) (alt : String) : String :=
  match o with
  | some s => if s = "" then alt else s
  | none => alt

/-- Own enumerable properties of a value, for use as a callback receiver:
objects yield their property list, arrays their indexed elements. -/
def propsOf (v : JsValue) : JsObj :=
  match v with
  | .obj o => o
  | .arr l => (l.enum).map (fun p => (toString p.1, p.2))
  | _ => []

/-- Doubling of embedded double quotes in an identifier. -/
def escQuotes : List Char → List Char
  | [] => []
  | c :: t => if c = '"' then '"' :: '"' :: escQuotes t else c :: escQuotes t

/-- Modelled from the spec (`as.name` is part of the external formatting
primitive): double-quote escaping of an SQL identifier. -/
def asName (txt : String) : String :=
  "\"" ++ String.mk (escQuotes txt.data) ++ "\""

/-- JavaScript `Array.prototype.join()` (default separator `","`). -/
def jsJoin : List String → String
  | [] => ""
  | [s] => s
  | s :: rest => s ++ "," ++ jsJoin rest

/-- JavaScript `String.prototype.toUpperCase` restricted to the ASCII
templates it is applied to. -/
def jsToUpper (s : String) : String :=
  String.mk (s.data.map Char.toUpper)

/-- `helpers.Column`: the normalized, immutable description of one column
(`lib/helpers/column.js`).  `def` is spelled `defv` (Lean keyword); the
callbacks `init` and `skip` take the source object explicitly in place of
the JavaScript `this` binding. -/
structure Column where
  name : String
  prop : Option String := none
  mod : Option String := none
  cast : Option String := none
  cnd : Bool := false
  defv : Option JsValue := none
  init : Option (JsObj → JsValue → JsValue) := none
  skip : Option (JsObj → String → Bool) := none

/-- The effective source-property name: `this.prop || this.name`. -/
def Column.effProp (c : Column) : String :=
  jsOrS c.prop c.name

/-- Derived placeholder: `'${' + (prop || name) + (mod || '') + '}'`. -/
def Column.variableText (c : Column) : String :=
  "$\x7b" ++ c.effProp ++ jsOrS c.mod "" ++ "\x7d"

/-- Derived cast suffix: `this.cast ? '::' + this.cast : ''`. -/
def Column.castText (c : Column) : String :=
  match c.cast with
  | some s => if s = "" then "" else "::" ++ s
  | none => ""

/-- Derived escaped identifier: `as.name(this.name)`. -/
def Column.escapedName (c : Column) : String :=
  asName c.name

/-- The modifier tokens recognized inside a string column spec, in the
order of the alternation `\^|~|#|:raw|:name|:json|:csv|:value`. -/
def modTokens : List String :=
  ["^", "~", "#", ":raw", ":name", ":json", ":csv", ":value"]

/-- Leftmost match of a modifier token: index of the first position where
some token of `modTokens` occurs as a prefix of the remaining characters,
together with that token (JavaScript `col.match(...)`). -/
def findMod : List Char → Option (Nat × String)
  | [] => none
  | c :: rest =>
    match modTokens.find? (fun t => t.data.isPrefixOf (c :: rest)) with
    | some t => some (0, t)
    | none =>
      match findMod rest with
      | some (i, t) => some (i + 1, t)
      | none => none

/-- `stripCnd`: the characters of a string spec with all leading `?`
stripped. -/
def restOf (s : String) : List Char :=
  s.data.dropWhile (fun c => c == '?')

/-- `new Column(s)` for a string spec: strip leading `?` (setting `cnd`),
split at the first modifier token, then require a non-empty name. -/
def columnOfString (s : String) : Except String Column :=
  let rest := restOf s
  let cnd : Bool := rest.length != s.data.length
  let parsed : String × Option String :=
    match findMod rest with
    | some (i, t) => (String.mk (rest.take i), some t)
    | none => (String.mk rest, none)
  if parsed.1 = "" then
    .error "A column name must be a non-empty text string."
  else
    .ok { name := parsed.1, mod := parsed.2, cnd := cnd }

/-- `getCastName`: strip any number of leading `:` characters. -/
def getCastName (name : String) : String :=
  String.mk (name.data.dropWhile (fun c => c == ':'))

/-- `new Column(cfg)` for a configurator object given as an embedded
JavaScript object (function-valued fields cannot occur in `JsValue`, so
`init`/`skip` stay unset, as in the source when they are not functions). -/
def columnOfConfig (o : JsObj) : Except String Column :=
  match asTextOpt ((lookupProp o "name").getD .undefined) with
  | none => .error "A column name must be a non-empty text string."
  | some nm =>
    let build : Option String → Column := fun propOpt =>
      { name := nm
        prop := propOpt
        mod :=
          match lookupProp o "mod" with
          | some (.str m) => if m = "" then none else some m
          | _ => none
        cast :=
          match asTextOpt ((lookupProp o "cast").getD .undefined) with
          | some cs => some (getCastName cs)
          | none => none
        cnd :=
          match lookupProp o "cnd" with
          | some v => jsTruthy v
          | none => false
        defv := lookupProp o "def" }
    match lookupProp o "prop" with
    | some pv =>
      match asTextOpt pv with
      | none => .error "A property name must be a non-empty text string."
      | some p => .ok (build (some p))
    | none => .ok (build none)

/-- `new Column(col)` for an embedded JavaScript value. -/
def columnOfValue (v : JsValue) : Except String Column :=
  match v with
  | .str s => columnOfString s
  | .obj o => columnOfConfig o
  | .arr l => columnOfConfig (propsOf (.arr l))
  | _ => .error "A column must be a string or a configurator object."

/-- `helpers.TableName`: immutable escaped table reference. -/
structure TableNameV where
  table : String
  schema : Option String
  name : String

/-- `new TableName(table, schema)`: record form `{table, schema}` overrides
the separate `schema` argument; the table must be non-empty text; a present
schema must be a string, and an empty-string schema is dropped. -/
def tableNameOf (tbl sch : JsValue) : Except String TableNameV :=
  let pair : JsValue × JsValue :=
    match tbl with
    | .obj o =>
      if (lookupProp o "table").isSome then
        ((lookupProp o "table").getD .undefined, (lookupProp o "schema").getD .undefined)
      else (tbl, sch)
    | _ => (tbl, sch)
  match pair with
  | (.str t, schE) =>
    if t = "" then .error "Table name must be non-empty text string."
    else if isNullJ schE then .ok ⟨t, none, asName t⟩
    else
      match schE with
      | .str s =>
        if s.length > 0 then .ok ⟨t, some s, asName s ++ "." ++ asName t⟩
        else .ok ⟨t, none, asName t⟩
      | _ => .error "Invalid schema name."
  | _ => .error "Table name must be non-empty text string."

/-- `helpers.ColumnSet` data: the ordered column sequence and the optional
default table.  The lazily-populated caches are modelled separately as
explicit state (`namesGet`, `variablesGet`, `getUpdates`). -/
structure CSet where
  columns : List Column
  table : Option TableNameV := none

/-- Pure value of the `names` property: comma-separated escaped names,
wrapped in parentheses when (and only when) the join is truthy. -/
def namesOf (cols : List Column) : String :=
  let n := jsJoin (cols.map Column.escapedName)
  if n = "" then n else "(" ++ n ++ ")"

/-- Pure value of the `variables` property: comma-separated placeholders of
every column, conditional ones included. -/
def variablesOf (cols : List Column) : String :=
  jsJoin (cols.map Column.variableText)

/-- The `skip` test run for a column against a source object: the predicate
(when present) invoked with the object as receiver and the effective
property name as argument. -/
def skipTest (c : Column) (o : JsObj) : Bool :=
  match c.skip with
  | some f => f o c.effProp
  | none => false

/-- One `SET` assignment of `getUpdates`:
`escapedName + '=' + variable + castText`. -/
def updAssign (c : Column) : String :=
  c.escapedName ++ "=" ++ c.variableText ++ c.castText

/-- Pure value computed by one `getUpdates(obj)` pass: assignments of the
non-conditional columns not skipped for this object. -/
def getUpdatesOf (cols : List Column) (o : JsObj) : String :=
  jsJoin ((cols.filter (fun c => !c.cnd && !skipTest c o)).map updAssign)

/-- Whether the `dynamic` flag gets set during a `getUpdates` pass: some
non-conditional column carries a `skip` callback (conditional columns are
filtered out before their `skip` is even looked at). -/
def hasDynamic (cols : List Column) : Bool :=
  cols.any (fun c => !c.cnd && c.skip.isSome)

/-- Stateful `ColumnSet#names` accessor.  The closure variable starts out
falsy (modelled `""`); a truthy cached value is returned as is, otherwise
the value is computed and stored. -/
def namesGet (cols : List Column) (st : String) : String × String :=
  if st = "" then
    let n := namesOf cols
    (n, n)
  else (st, st)

/-- Stateful `ColumnSet#variables` accessor, same caching discipline. -/
def variablesGet (cols : List Column) (st : String) : String × String :=
  if st = "" then
    let n := variablesOf cols
    (n, n)
  else (st, st)

/-- Stateful `ColumnSet.getUpdates(obj)`: returns a truthy cached value
unchanged; otherwise computes the list and stores it only when no
non-conditional column has a `skip` callback. -/
def getUpdates (cols : List Column) (o : JsObj) (st : String) : String × String :=
  if st = "" then
    let list := getUpdatesOf cols o
    (list, if hasDynamic cols then st else list)
  else (st, st)

/-- `ColumnSet.canUpdate(data)`: feasibility of an `UPDATE` for the data,
with the source's two counting loops. -/
def canUpdate (cols : List Column) (data : JsValue) : Except String Bool :=
  if !isNonNullObject data then
    .error "Invalid parameter 'data' specified."
  else
    let total := cols.length
    match data with
    | .arr a =>
      let cnd := cols.foldl (fun n c => if c.cnd then n + 1 else n) 0
      .ok (decide (total > cnd) && decide (a.length > 0))
    | d =>
      let counts := cols.foldl
        (fun (p : Nat × Nat) c =>
          (p.1 + (if c.cnd then 1 else 0),
           p.2 + (if skipTest c (propsOf d) then 1 else 0))) (0, 0)
      .ok (decide (total > counts.1 + counts.2))

/-- `ColumnSet.prepare(obj)`: build a fresh object mapping each column's
effective property name to its resolved value. -/
def prepare (cols : List Column) (obj : JsObj) : JsObj :=
  cols.foldl
    (fun target c =>
      let name := c.effProp
      match lookupProp obj name with
      | some value =>
        setProp target name
          (match c.init with
           | some f => f obj value
           | none => value)
      | none =>
        let value : JsValue :=
          match c.defv with
          | some d => d
          | none => .undefined
        let target1 :=
          match c.defv with
          | some d => setProp target name d
          | none => target
        match c.init with
        | some f => setProp target1 name (f obj value)
        | none => target1)
    []

/-- The `for (var name in columns)` enumeration over a plain object: own
property names in insertion order, then unshadowed prototype-chain names. -/
def enumProps (own proto : List String) : List String :=
  own ++ proto.filter (fun n => !own.contains n)

/-- The plain-object branch of the `ColumnSet` constructor: every
enumerated name passing the `inherit || hasOwnProperty` guard is fed to the
`Column` string constructor, in enumeration order. -/
def columnSetOfObject (own proto : List String) (inherit : Bool) :
    Except String (List Column) :=
  (enumProps own proto).foldlM
    (fun acc name =>
      if inherit || own.contains name then
        match columnOfString name with
        | .ok c => .ok (acc ++ [c])
        | .error e => .error e
      else pure acc)
    []

/-- Explicit recursion for `List.mapM` over `Except` (used so the update
generator unfolds predictably in proofs). -/
def mapE (f : α → Except String β) : List α → Except String (List β)
  | [] => .ok []
  | a :: t =>
    match f a with
    | .error e => .error e
    | .ok b =>
      match mapE f t with
      | .error e => .error e
      | .ok r => .ok (b :: r)

/-- `new ColumnSet(columns)` reduced to its column list, for the embedded
JavaScript inputs reachable from `update` (array of specs, or a plain
object whose own property names are enumerated). -/
def mkColumnSetCols (v : JsValue) : Except String (List Column) :=
  match v with
  | .arr elems => mapE columnOfValue elems
  | .obj o => columnSetOfObject (o.map Prod.fst) [] false
  | _ => .error "Invalid parameter 'columns' specified."

/-- Modelled from the spec (`as.format` is the external formatting
primitive): raw positional substitution of the tokens `$1^` … `$5^`, the
only ones occurring in the generators' templates.  Literal characters are
copied; token positions are replaced by the corresponding value verbatim. -/
def formatRawAux : List Char → List String → String
  | [], _ => ""
  | [c], _ => String.singleton c
  | [c, d], args => String.singleton c ++ formatRawAux [d] args
  | c :: d :: h :: rest, args =>
    if c = '$' && h = '^' then
      if d = '1' then args.getD 0 "" ++ formatRawAux rest args
      else if d = '2' then args.getD 1 "" ++ formatRawAux rest args
      else if d = '3' then args.getD 2 "" ++ formatRawAux rest args
      else if d = '4' then args.getD 3 "" ++ formatRawAux rest args
      else if d = '5' then args.getD 4 "" ++ formatRawAux rest args
      else String.singleton c ++ formatRawAux (d :: h :: rest) args
    else String.singleton c ++ formatRawAux (d :: h :: rest) args

/-- Raw positional formatting over a template string. -/
def formatRaw (tmpl : String) (args : List String) : String :=
  formatRawAux tmpl.data args

/-- The `columns` argument of `update`: either an existing `ColumnSet`
instance, or any other JavaScript value (spec, or null/undefined). -/
inductive ColsParam where
  | inst (cs : CSet)
  | val (v : JsValue)

/-- The `table` argument of `update`: a `TableName` instance or any other
JavaScript value. -/
inductive TParam where
  | inst (t : TableNameV)
  | val (v : JsValue)

/-- Null test on a `table` argument (`utils.isNull`). -/
def isNullT (tp : TParam) : Bool :=
  match tp with
  | .inst _ => false
  | .val v => isNullJ v

/-- Falsiness test on a `table` argument (`if (!table)`). -/
def falsyT (tp : TParam) : Bool :=
  match tp with
  | .inst _ => false
  | .val v => !jsTruthy v

/-- The `options` argument of `update`: absent/null, a (truthy) options
object carrying optional string aliases, or an invalid non-object value. -/
inductive OParam where
  | noneO
  | someO (tableAlias valueAlias : Option String)
  | badO

/-- The effective aliases of the multi-row template: `t`/`v` unless
overridden by truthy `options.tableAlias`/`options.valueAlias`. -/
def aliasesOf (o : OParam) : String × String :=
  match o with
  | .someO ta va => (jsOrS ta "t", jsOrS va "v")
  | _ => ("t", "v")

/-- One value tuple per array element: each element must be a non-null
object (else `Invalid update object at index N.`) and is rendered as
`'(' + format(variables, prepare(d)) + ')'` through the abstract named
formatter `fmt`. -/
def tupleRows (fmt : String → JsObj → String) (cols : List Column) :
    List JsValue → Nat → Except String (List String)
  | [], _ => .ok []
  | d :: t, i =>
    if isNonNullObject d then do
      let r ← tupleRows fmt cols t (i + 1)
      .ok (("(" ++ fmt (variablesOf cols) (prepare cols (propsOf d)) ++ ")") :: r)
    else .error ("Invalid update object at index " ++ toString i ++ ".")

/-- Error raised when the effective column set is empty. -/
def errNoColumns : String :=
  "Cannot generate a valid UPDATE without any columns."

/-- The effective table argument: when the passed `table` is null and the
columns came in as a `ColumnSet`, its default table (possibly absent,
i.e. `undefined`) takes over. -/
def effTableParam (cs : CSet) (tp : TParam) : TParam :=
  if isNullT tp then
    match cs.table with
    | some t => TParam.inst t
    | none => TParam.val .undefined
  else tp

/-- Final table resolution of `update`: a falsy table is `Table name is
unknown.`; a non-`TableName` value is coerced through the `TableName`
constructor. -/
def resolveTable (tp : TParam) : Except String TableNameV :=
  if falsyT tp then .error "Table name is unknown."
  else
    match tp with
    | .inst t => .ok t
    | .val v => tableNameOf v .undefined

/-- `helpers.update(data, columns, table, options, capSQL)`
(`lib/helpers/methods/update.js`), with the external named formatter passed
in as `fmt`; the accessor caches are elided here (they are observationally
transparent, see the cache theorems) and the pure values are used. -/
def update (data : JsValue) (columns : ColsParam) (table : TParam)
    (options : OParam) (capSQL : Bool) (fmt : String → JsObj → String) :
    Except String String := do
  if !(jsTruthy data && isNonNullObject data) then
    throw "Invalid parameter 'data' specified."
  let isArr : Bool :=
    match data with
    | .arr _ => true
    | _ => false
  let resolved : Except String CSet :=
    match columns with
    | .inst c => .ok c
    | .val v =>
      if isArr && isNullJ v then
        .error "Parameter 'columns' is required when updating multiple records."
      else do
        let cols ← mkColumnSetCols (if jsTruthy v then v else data)
        .ok ⟨cols, none⟩
  let cs ← resolved
  if isArr &&
      (match data with
       | .arr elems => elems.length = 0
       | _ => false) then
    throw "Cannot generate an UPDATE from an empty array."
  if (match options with | .badO => true | _ => false) then
    throw "Invalid parameter 'options' specified."
  let tn ← resolveTable (effTableParam cs table)
  match data with
  | .arr elems =>
    let (tableAlias, valueAlias) := aliasesOf options
    let query :=
      if capSQL then jsToUpper "update $1^ as $2^ set $3^ from (values$4^) as $5^"
      else "update $1^ as $2^ set $3^ from (values$4^) as $5^"
    let actualColumns := cs.columns.filter (fun c => !c.cnd)
    if actualColumns.length = 0 then throw errNoColumns
    let targetCols := jsJoin (actualColumns.map (fun c =>
      c.escapedName ++ "=" ++ valueAlias ++ "." ++ c.escapedName ++ c.castText))
    let rows ← tupleRows fmt cs.columns elems 0
    let values := jsJoin rows
    return formatRaw query
      [tn.name, tableAlias, targetCols, values, valueAlias ++ namesOf cs.columns]
  | d =>
    let updates := getUpdatesOf cs.columns (propsOf d)
    if updates.length = 0 then throw errNoColumns
    let query := if capSQL then jsToUpper "update $1^ set " else "update $1^ set "
    return formatRaw query [tn.name] ++ fmt updates (prepare cs.columns (propsOf d))

/-! Helper lemmas shared by the claim theorems. -/

lemma okBind (a : α) (f : α → Except String β) : (Except.ok a >>= f) = f a := rfl

lemma errorBind (e : String) (f : α → Except String β) :
    ((Except.error e : Except String α) >>= f) = .error e := rfl

lemma throwBind (e : String) (f : PUnit → Except String β) :
    ((throw e : Except String PUnit) >>= f) = .error e := rfl

lemma tupleRows_ok (fmt : String → JsObj → String) (cols : List Column) :
    ∀ (l : List JsValue) (k : Nat), (∀ d ∈ l, isNonNullObject d = true) →
      tupleRows fmt cols l k =
        .ok (l.map fun d => "(" ++ fmt (variablesOf cols) (prepare cols (propsOf d)) ++ ")") := by
  intro l
  induction l with
  | nil => intro k _; rfl
  | cons d t ih =>
    intro k h
    simp only [tupleRows, h d (by simp), if_true, List.map_cons]
    rw [ih (k + 1) (fun x hx => h x (by simp [hx]))]
    rfl

lemma formatRawMulti (a b c d e : String) :
    formatRaw "update $1^ as $2^ set $3^ from (values$4^) as $5^" [a, b, c, d, e] =
      "update " ++ a ++ " as " ++ b ++ " set " ++ c ++ " from (values" ++ d ++ ") as " ++ e := by
  apply String.ext
  have h1 : ("update " : String).data = ['u', 'p', 'd', 'a', 't', 'e', ' '] := rfl
  have h2 : (" as " : String).data = [' ', 'a', 's', ' '] := rfl
  have h3 : (" set " : String).data = [' ', 's', 'e', 't', ' '] := rfl
  have h4 : (" from (values" : String).data =
      [' ', 'f', 'r', 'o', 'm', ' ', '(', 'v', 'a', 'l', 'u', 'e', 's'] := rfl
  have h5 : (") as " : String).data = [')', ' ', 'a', 's', ' '] := rfl
  simp [formatRaw, formatRawAux, String.data_append, h1, h2, h3, h4, h5, String.singleton]

lemma formatRawMultiCap (a b c d e : String) :
    formatRaw "UPDATE $1^ AS $2^ SET $3^ FROM (VALUES$4^) AS $5^" [a, b, c, d, e] =
      "UPDATE " ++ a ++ " AS " ++ b ++ " SET " ++ c ++ " FROM (VALUES" ++ d ++ ") AS " ++ e := by
  apply String.ext
  have h1 : ("UPDATE " : String).data = ['U', 'P', 'D', 'A', 'T', 'E', ' '] := rfl
  have h2 : (" AS " : String).data = [' ', 'A', 'S', ' '] := rfl
  have h3 : (" SET " : String).data = [' ', 'S', 'E', 'T', ' '] := rfl
  have h4 : (" FROM (VALUES" : String).data =
      [' ', 'F', 'R', 'O', 'M', ' ', '(', 'V', 'A', 'L', 'U', 'E', 'S'] := rfl
  have h5 : (") AS " : String).data = [')', ' ', 'A', 'S', ' '] := rfl
  simp [formatRaw, formatRawAux, String.data_append, h1, h2, h3, h4, h5, String.singleton]

lemma jsToUpperMulti :
    jsToUpper "update $1^ as $2^ set $3^ from (values$4^) as $5^" =
      "UPDATE $1^ AS $2^ SET $3^ FROM (VALUES$4^) AS $5^" := rfl

/-- Claim C1: for a non-empty array of non-null source objects, a column
set with at least one non-conditional column, valid options and a
resolvable table, `update` returns a statement of the shape
`update <escapedTable> as <tableAlias> set <assignments> from
(values<tuple,...>) as <valueAlias><names>`, with the SET assignments
built in column order from the non-conditional columns only
(`escapedName '=' valueAlias '.' escapedName castSuffix`), each value
tuple built from the full placeholder list applied to `prepare(element)`,
aliases defaulting to `t`/`v` unless overridden, and the fixed keywords
uppercased exactly when the capitalize flag is set. -/
theorem update_array_statement_shape (cs : CSet) (elems : List JsValue)
    (tp : TParam) (opts : OParam) (cap : Bool)
    (fmt : String → JsObj → String) (tn : TableNameV)
    (hne : elems ≠ [])
    (hobj : ∀ d ∈ elems, isNonNullObject d = true)
    (hcols : cs.columns.filter (fun c => !c.cnd) ≠ [])
    (hopts : opts ≠ OParam.badO)
    (htab : resolveTable (effTableParam cs tp) = .ok tn) :
    update (.arr elems) (.inst cs) tp opts cap fmt =
      .ok ((if cap then "UPDATE " else "update ") ++ tn.name ++
        (if cap then " AS " else " as ") ++ (aliasesOf opts).1 ++
        (if cap then " SET " else " set ") ++
        jsJoin ((cs.columns.filter (fun c => !c.cnd)).map (fun c =>
          c.escapedName ++ "=" ++ (aliasesOf opts).2 ++ "." ++ c.escapedName ++ c.castText)) ++
        (if cap then " FROM (VALUES" else " from (values") ++
        jsJoin (elems.map (fun d =>
          "(" ++ fmt (variablesOf cs.columns) (prepare cs.columns (propsOf d)) ++ ")")) ++
        (if cap then ") AS " else ") as ") ++
        (aliasesOf opts).2 ++ namesOf cs.columns) := by
  have hne' : decide (elems.length = 0) = false := by simp [hne]
  have hopts' : (match opts with | OParam.badO => true | _ => false) = false := by
    cases opts
    · rfl
    · rfl
    · exact absurd rfl hopts
  cases cap <;>
  · simp only [update, jsTruthy, isNonNullObject, Bool.and_self, Bool.not_true, if_false,
      Bool.true_and, hne', hopts', htab, okBind, Bool.false_eq_true,
      Bool.and_false, Bool.and_true, if_true, ite_false, ite_true,
      tupleRows_ok fmt cs.columns elems 0 hobj, jsToUpperMulti]
    rw [if_neg (show ¬(List.filter (fun c => !c.cnd) cs.columns).length = 0 by
      simpa using hcols)]
    simp only [pure_bind]
    rw [show (pure : String → Except String String) = Except.ok from rfl]
    first
    | rw [show Except.ok
          (formatRaw "update $1^ as $2^ set $3^ from (values$4^) as $5^"
            [tn.name, (aliasesOf opts).1,
             jsJoin ((cs.columns.filter (fun c => !c.cnd)).map (fun c =>
               c.escapedName ++ "=" ++ (aliasesOf opts).2 ++ "." ++ c.escapedName ++ c.castText)),
             jsJoin (elems.map (fun d =>
               "(" ++ fmt (variablesOf cs.columns) (prepare cs.columns (propsOf d)) ++ ")")),
             (aliasesOf opts).2 ++ namesOf cs.columns]) =
          Except.ok ("update " ++ tn.name ++ " as " ++ (aliasesOf opts).1 ++ " set " ++
            jsJoin ((cs.columns.filter (fun c => !c.cnd)).map (fun c =>
              c.escapedName ++ "=" ++ (aliasesOf opts).2 ++ "." ++ c.escapedName ++ c.castText)) ++
            " from (values" ++
            jsJoin (elems.map (fun d =>
              "(" ++ fmt (variablesOf cs.columns) (prepare cs.columns (propsOf d)) ++ ")")) ++
            ") as " ++ ((aliasesOf opts).2 ++ namesOf cs.columns))
        from by rw [formatRawMulti]]
    | rw [show Except.ok
          (formatRaw "UPDATE $1^ AS $2^ SET $3^ FROM (VALUES$4^) AS $5^"
            [tn.name, (aliasesOf opts).1,
             jsJoin ((cs.columns.filter (fun c => !c.cnd)).map (fun c =>
               c.escapedName ++ "=" ++ (aliasesOf opts).2 ++ "." ++ c.escapedName ++ c.castText)),
             jsJoin (elems.map (fun d =>
               "(" ++ fmt (variablesOf cs.columns) (prepare cs.columns (propsOf d)) ++ ")")),
             (aliasesOf opts).2 ++ namesOf cs.columns]) =
          Except.ok ("UPDATE " ++ tn.name ++ " AS " ++ (aliasesOf opts).1 ++ " SET " ++
            jsJoin ((cs.columns.filter (fun c => !c.cnd)).map (fun c =>
              c.escapedName ++ "=" ++ (aliasesOf opts).2 ++ "." ++ c.escapedName ++ c.castText)) ++
            " FROM (VALUES" ++
            jsJoin (elems.map (fun d =>
              "(" ++ fmt (variablesOf cs.columns) (prepare cs.columns (propsOf d)) ++ ")")) ++
            ") AS " ++ ((aliasesOf opts).2 ++ namesOf cs.columns))
        from by rw [formatRawMultiCap]]
    simp [String.append_assoc]

/-- A concrete two-column set (`?id`, `val`) for exercising the multi-row
update generator. -/
def csC1 : CSet :=
  ⟨[{name := "id", cnd := true}, {name := "val"}], none⟩

theorem update_array_statement_shape_witness :
    update (.arr [.obj [("id", .num 1), ("val", .num 2)]]) (.inst csC1)
        (.val (.str "tbl")) .noneO false (fun t _ => t) =
      .ok "update \"tbl\" as t set \"val\"=v.\"val\" from (values($\x7bid\x7d,$\x7bval\x7d)) as v(\"id\",\"val\")" :=
  (update_array_statement_shape csC1 [.obj [("id", .num 1), ("val", .num 2)]]
    (.val (.str "tbl")) .noneO false (fun t _ => t) ⟨"tbl", none, asName "tbl"⟩
    (by simp)
    (by intro d hd; rw [List.mem_singleton] at hd; subst hd; rfl)
    (by simp [csC1, List.filter])
    (by intro h; exact OParam.noConfusion h)
    rfl).trans (by rfl)

/-- A column with an `init` override but no `def` default. -/
def colC2 : Column :=
  { name := "a", init := some (fun _ _ => .num 5) }

/-- Claim C2 counterexample: for a column with no default but an override,
`prepare` of an object lacking the property does write an entry — the
override is invoked with `undefined` — contradicting the claim that the
override runs for a missing property only if a default was present (and
that no entry is written then). -/
theorem prepare_override_runs_without_default :
    colC2.defv = none ∧ prepare [colC2] [] = [("a", JsValue.num 5)] :=
  ⟨rfl, rfl⟩

/-- Claim C2 (amended): `prepare` resolves one column against a source
object as follows — when the object has the effective property, the entry
is `override(value)` if an override exists, else the value; when it lacks
the property, the entry is `override(default)` when both exist, the
default when only a default exists, `override(undefined)` when only an
override exists, and no entry is written when neither exists.  The result
is a fresh object (built from scratch; the source object is never
touched). -/
theorem prepare_single_column (c : Column) (obj : JsObj) :
    prepare [c] obj =
      match lookupProp obj c.effProp with
      | some v =>
        [(c.effProp, match c.init with | some f => f obj v | none => v)]
      | none =>
        match c.defv, c.init with
        | some d, some f => [(c.effProp, f obj d)]
        | some d, none => [(c.effProp, d)]
        | none, some f => [(c.effProp, f obj JsValue.undefined)]
        | none, none => [] := by
  cases hl : lookupProp obj c.effProp <;>
    cases hd : c.defv <;>
      cases hi : c.init <;>
        simp [prepare, hl, hd, hi, setProp]

/-- JavaScript loop counting the conditional columns equals `countP`. -/
lemma foldl_count_cnd (l : List Column) :
    ∀ n : Nat, l.foldl (fun n c => if c.cnd then n + 1 else n) n =
      n + l.countP (fun c => c.cnd) := by
  induction l with
  | nil => intro n; simp
  | cons c t ih =>
    intro n
    by_cases h : c.cnd
    · simp [List.countP_cons, h, ih]
      omega
    · simp [List.countP_cons, h, ih]

/-- JavaScript loop counting conditional and skipped columns in one pass
equals the pair of `countP` values. -/
lemma foldl_count_pair (o : JsObj) (l : List Column) :
    ∀ p : Nat × Nat,
      l.foldl (fun (p : Nat × Nat) c =>
        (p.1 + (if c.cnd then 1 else 0),
         p.2 + (if skipTest c o then 1 else 0))) p =
      (p.1 + l.countP (fun c => c.cnd), p.2 + l.countP (fun c => skipTest c o)) := by
  induction l with
  | nil => intro p; simp
  | cons c t ih =>
    intro p
    simp only [List.foldl_cons, ih, List.countP_cons]
    by_cases h1 : c.cnd <;> by_cases h2 : skipTest c o <;>
      simp [h1, h2, Prod.mk.injEq] <;> omega

/-- Claim C3: `canUpdate` returns, for array data, whether the total
column count exceeds the conditional count and the array is non-empty —
without ever consulting `skip` predicates (replacing every column's `skip`
changes nothing); for a single object, whether the total exceeds the
conditional count plus the number of columns whose `skip` predicate,
invoked with the object and the effective property name, returns true;
and it throws a `TypeError` for non-object data. -/
theorem canUpdate_characterization (cols : List Column) :
    (∀ a : List JsValue,
      canUpdate cols (.arr a) =
        .ok (decide (cols.countP (fun c => c.cnd) < cols.length) &&
             decide (0 < a.length)))
  ∧ (∀ (a : List JsValue) (g : Column → Option (JsObj → String → Bool)),
      canUpdate (cols.map (fun c => { c with skip := g c })) (.arr a) =
        canUpdate cols (.arr a))
  ∧ (∀ o : JsObj,
      canUpdate cols (.obj o) =
        .ok (decide (cols.countP (fun c => c.cnd) +
               cols.countP (fun c => skipTest c o) < cols.length)))
  ∧ (∀ v : JsValue, isNonNullObject v = false →
      canUpdate cols v = .error "Invalid parameter 'data' specified.") := by
  refine ⟨fun a => ?_, fun a g => ?_, fun o => ?_, fun v hv => ?_⟩
  · simp [canUpdate, isNonNullObject, foldl_count_cnd]
  · simp [canUpdate, isNonNullObject, foldl_count_cnd, List.countP_map]
    rfl
  · simp [canUpdate, isNonNullObject, foldl_count_pair, propsOf]
  · simp [canUpdate, hv]

theorem canUpdate_characterization_witness :
    canUpdate [] (.num 3) = .error "Invalid parameter 'data' specified." :=
  (canUpdate_characterization []).2.2.2 (.num 3) rfl

/-- Every modifier token is non-empty. -/
lemma modTokens_data_ne_nil : ∀ u ∈ modTokens, u.data ≠ [] := by
  intro u hu
  fin_cases hu <;> decide

/-- Soundness of the token scanner: a hit is a member token occurring at
the reported position, and no token occurs at any earlier position; a miss
means no token occurs anywhere. -/
lemma findMod_sound (l : List Char) :
    (∀ i t, findMod l = some (i, t) →
      t ∈ modTokens ∧ List.IsPrefix t.data (l.drop i) ∧
        ∀ j, j < i → ∀ u ∈ modTokens, ¬ List.IsPrefix u.data (l.drop j))
  ∧ (findMod l = none → ∀ j, ∀ u ∈ modTokens, ¬ List.IsPrefix u.data (l.drop j)) := by
  induction l with
  | nil =>
    refine ⟨fun i t h => by simp [findMod] at h, fun _ j u hu => ?_⟩
    simp only [List.drop_nil, List.prefix_nil]
    exact modTokens_data_ne_nil u hu
  | cons c rest ih =>
    cases hfind : modTokens.find? (fun t => t.data.isPrefixOf (c :: rest)) with
    | some t0 =>
      refine ⟨fun i t h => ?_, fun h => ?_⟩
      · rw [findMod, hfind] at h
        simp only [Option.some.injEq, Prod.mk.injEq] at h
        obtain ⟨hi, ht⟩ := h
        subst hi ht
        refine ⟨List.mem_of_find?_eq_some hfind, ?_, fun j hj => by omega⟩
        simpa [List.isPrefixOf_iff_prefix] using List.find?_some hfind
      · rw [findMod, hfind] at h
        cases hrec : findMod rest <;> simp [hrec] at h
    | none =>
      have h0 : ∀ u ∈ modTokens, ¬ List.IsPrefix u.data (c :: rest) := by
        intro u hu
        have := List.find?_eq_none.mp hfind u hu
        simpa [List.isPrefixOf_iff_prefix] using this
      cases hrec : findMod rest with
      | some p =>
        obtain ⟨i0, t0⟩ := p
        refine ⟨fun i t h => ?_, fun h => ?_⟩
        · rw [findMod, hfind, hrec] at h
          simp only [Option.some.injEq, Prod.mk.injEq] at h
          obtain ⟨hi, ht⟩ := h
          subst hi ht
          obtain ⟨hmem, hpre, hmin⟩ := (ih.1) i0 t0 hrec
          refine ⟨hmem, by simpa [List.drop_succ_cons] using hpre, ?_⟩
          intro j hj u hu
          match j with
          | 0 => simpa using h0 u hu
          | j + 1 =>
            rw [List.drop_succ_cons]
            exact hmin j (by omega) u hu
        · rw [findMod, hfind, hrec] at h
          simp at h
      | none =>
        refine ⟨fun i t h => ?_, fun _ j u hu => ?_⟩
        · rw [findMod, hfind, hrec] at h
          simp at h
        · match j with
          | 0 => simpa using h0 u hu
          | j + 1 =>
            rw [List.drop_succ_cons]
            exact ih.2 hrec j u hu

/-- `String.mk` produces the empty string only from the empty list. -/
lemma stringMk_eq_empty_iff (l : List Char) : String.mk l = "" ↔ l = [] := by
  constructor
  · intro h
    have := congrArg String.data h
    simpa using this
  · intro h
    subst h
    rfl

/-- Stripping leading `?` shortens the character list exactly when the
string starts with `?`. -/
lemma restOf_length_ne_iff (s : String) :
    (restOf s).length ≠ s.data.length ↔ ∃ t, s.data = '?' :: t := by
  unfold restOf
  cases hd : s.data with
  | nil => simp
  | cons c t =>
    rw [List.dropWhile_cons]
    by_cases hc : c = '?'
    · subst hc
      simp only [beq_self_eq_true, if_true]
      have := (List.dropWhile_sublist (l := t) (fun c => c == '?')).length_le
      constructor
      · intro _
        exact ⟨t, rfl⟩
      · intro _
        simp only [List.length_cons]
        omega
    · have hcb : (c == '?') = false := by simpa using hc
      simp only [hcb, if_false]
      constructor
      · intro h
        exact absurd rfl h
      · rintro ⟨t', ht'⟩
        injection ht' with h1 _
        exact absurd h1 hc

/-- Claim C4: constructing a column descriptor from a string strips the
leading `?` run and sets the conditional flag exactly when the string
began with `?`; the name/modifier split happens at the first occurrence of
a modifier token in the remainder (everything before it is the name, the
match the modifier), with the whole remainder as name when no token
occurs; and the construction fails — always with the non-empty-name
`TypeError` — exactly when the resulting name is empty. -/
theorem column_string_parse (s : String) :
    (∀ c, columnOfString s = .ok c →
      (c.cnd = true ↔ ∃ t, s.data = '?' :: t) ∧
      ((∃ i t, t ∈ modTokens ∧ List.IsPrefix t.data ((restOf s).drop i) ∧
          (∀ j, j < i → ∀ u ∈ modTokens, ¬ List.IsPrefix u.data ((restOf s).drop j)) ∧
          c.name = String.mk ((restOf s).take i) ∧ c.mod = some t) ∨
        ((∀ j, ∀ u ∈ modTokens, ¬ List.IsPrefix u.data ((restOf s).drop j)) ∧
          c.name = String.mk (restOf s) ∧ c.mod = none)))
  ∧ ((∃ e, columnOfString s = .error e) ↔
      (restOf s = [] ∨ ∃ t ∈ modTokens, List.IsPrefix t.data (restOf s)))
  ∧ (∀ e, columnOfString s = .error e →
      e = "A column name must be a non-empty text string.") := by
  cases hfm : findMod (restOf s) with
  | some p =>
    obtain ⟨i, t⟩ := p
    obtain ⟨hmem, hpre, hmin⟩ := (findMod_sound (restOf s)).1 i t hfm
    by_cases hname : String.mk ((restOf s).take i) = ""
    · have herr : columnOfString s = .error "A column name must be a non-empty text string." := by
        simp [columnOfString, hfm, hname]
      refine ⟨fun c hc => by rw [herr] at hc; exact absurd hc (by simp),
        ⟨fun _ => ?_, fun _ => ⟨_, herr⟩⟩,
        fun e he => by rw [herr] at he; injection he with h1; exact h1.symm⟩
      rcases (List.take_eq_nil_iff).mp ((stringMk_eq_empty_iff _).mp hname) with hi | hr
      · subst hi
        exact Or.inr ⟨t, hmem, by simpa using hpre⟩
      · exact Or.inl hr
    · have hok : columnOfString s =
          .ok { name := String.mk ((restOf s).take i), mod := some t,
                cnd := (restOf s).length != s.data.length } := by
        simp [columnOfString, hfm, hname]
      refine ⟨fun c hc => ?_, ⟨fun ⟨e, he⟩ => ?_, fun hd => ?_⟩,
        fun e he => by rw [hok] at he; exact absurd he (by simp)⟩
      · rw [hok] at hc
        injection hc with h1
        subst h1
        refine ⟨by simpa [bne] using restOf_length_ne_iff s, Or.inl ⟨i, t, hmem, hpre, hmin, rfl, rfl⟩⟩
      · rw [hok] at he
        exact absurd he (by simp)
      · exfalso
        rcases hd with hr | ⟨u, hu, hupre⟩
        · rw [hr] at hpre
          simp only [List.drop_nil, List.prefix_nil] at hpre
          exact modTokens_data_ne_nil t hmem hpre
        · rcases Nat.eq_zero_or_pos i with hi | hi
          · subst hi
            exact hname ((stringMk_eq_empty_iff _).mpr (by simp))
          · exact hmin 0 hi u hu (by simpa using hupre)
  | none =>
    have hno : ∀ j, ∀ u ∈ modTokens, ¬ List.IsPrefix u.data ((restOf s).drop j) :=
      (findMod_sound (restOf s)).2 hfm
    by_cases hname : String.mk (restOf s) = ""
    · have hr : restOf s = [] := (stringMk_eq_empty_iff _).mp hname
      have herr : columnOfString s = .error "A column name must be a non-empty text string." := by
        simp [columnOfString, hfm, hname]
      exact ⟨fun c hc => by rw [herr] at hc; exact absurd hc (by simp),
        ⟨fun _ => Or.inl hr, fun _ => ⟨_, herr⟩⟩,
        fun e he => by rw [herr] at he; injection he with h1; exact h1.symm⟩
    · have hok : columnOfString s =
          .ok { name := String.mk (restOf s), mod := none,
                cnd := (restOf s).length != s.data.length } := by
        simp [columnOfString, hfm, hname]
      refine ⟨fun c hc => ?_, ⟨fun ⟨e, he⟩ => ?_, fun hd => ?_⟩,
        fun e he => by rw [hok] at he; exact absurd he (by simp)⟩
      · rw [hok] at hc
        injection hc with h1
        subst h1
        exact ⟨by simpa [bne] using restOf_length_ne_iff s, Or.inr ⟨hno, rfl, rfl⟩⟩
      · rw [hok] at he
        exact absurd he (by simp)
      · rcases hd with hr | ⟨u, hu, hupre⟩
        · exact (hname ((stringMk_eq_empty_iff _).mpr hr)).elim
        · exact (hno 0 u hu (by simpa using hupre)).elim

theorem column_string_parse_witness :
    (({ name := "n", mod := some "~", cnd := true } : Column).cnd = true ↔
        ∃ t, "?n~".data = '?' :: t) ∧
      ((∃ i t, t ∈ modTokens ∧ List.IsPrefix t.data ((restOf "?n~").drop i) ∧
          (∀ j, j < i → ∀ u ∈ modTokens, ¬ List.IsPrefix u.data ((restOf "?n~").drop j)) ∧
          ({ name := "n", mod := some "~", cnd := true } : Column).name =
            String.mk ((restOf "?n~").take i) ∧
          ({ name := "n", mod := some "~", cnd := true } : Column).mod = some t) ∨
        ((∀ j, ∀ u ∈ modTokens, ¬ List.IsPrefix u.data ((restOf "?n~").drop j)) ∧
          ({ name := "n", mod := some "~", cnd := true } : Column).name =
            String.mk (restOf "?n~") ∧
          ({ name := "n", mod := some "~", cnd := true } : Column).mod = none)) :=
  (column_string_parse "?n~").1 { name := "n", mod := some "~", cnd := true } rfl

/-- Claim C10: any string whose remainder after stripping the leading `?`
run is empty or begins with a modifier token yields the non-empty-name
`TypeError` from the column constructor. -/
theorem column_empty_name_error (s : String)
    (h : restOf s = [] ∨ ∃ t ∈ modTokens, List.IsPrefix t.data (restOf s)) :
    columnOfString s = .error "A column name must be a non-empty text string." := by
  cases hfm : findMod (restOf s) with
  | some p =>
    obtain ⟨i, t⟩ := p
    obtain ⟨hmem, hpre, hmin⟩ := (findMod_sound (restOf s)).1 i t hfm
    have hi : i = 0 := by
      rcases h with hr | ⟨u, hu, hupre⟩
      · rw [hr] at hpre
        simp only [List.drop_nil, List.prefix_nil] at hpre
        exact absurd hpre (modTokens_data_ne_nil t hmem)
      · by_contra hne
        exact hmin 0 (by omega) u hu (by simpa using hupre)
    subst hi
    simp [columnOfString, hfm]
  | none =>
    have hno := (findMod_sound (restOf s)).2 hfm
    have hr : restOf s = [] := by
      rcases h with hr | ⟨u, hu, hupre⟩
      · exact hr
      · exact absurd (by simpa using hupre) (hno 0 u hu)
    have hmk : String.mk (restOf s) = "" := by rw [hr]
    simp [columnOfString, hfm, hmk]

theorem column_empty_name_error_witness :
    columnOfString "?:csv" = .error "A column name must be a non-empty text string." :=
  column_empty_name_error "?:csv" (Or.inr ⟨":csv", by decide, by decide⟩)

/-- Objects with unequal skips agree on `getUpdatesOf` when the skips only
differ on conditional columns (they are filtered out first). -/
lemma getUpdatesOf_filter_map_cnd (o : JsObj) (g : Column → JsObj → String → Bool) :
    ∀ cols : List Column,
      (cols.map (fun c => if c.cnd then { c with skip := some (g c) } else c)).filter
          (fun c => !c.cnd && !skipTest c o) =
        cols.filter (fun c => !c.cnd && !skipTest c o) := by
  intro cols
  induction cols with
  | nil => rfl
  | cons c t ih =>
    cases hc : c.cnd <;> simp [List.filter_cons, hc, ih]

/-- When no non-conditional column has a `skip` callback, one
`getUpdates` pass is independent of the source object. -/
lemma getUpdatesOf_no_dynamic (cols : List Column) (o o' : JsObj)
    (h : hasDynamic cols = false) : getUpdatesOf cols o = getUpdatesOf cols o' := by
  have hall : ∀ c ∈ cols, (!c.cnd && c.skip.isSome) = false := by
    simpa [hasDynamic] using h
  unfold getUpdatesOf
  congr 1
  apply congrArg
  apply List.filter_congr
  intro c hc
  cases hcnd : c.cnd
  · have : c.skip.isSome = false := by
      have := hall c hc
      simpa [hcnd] using this
    have hskip : c.skip = none := by
      cases hs : c.skip
      · rfl
      · rw [hs] at this
        exact absurd this (by simp)
    simp [skipTest, hskip]
  · simp [hcnd]

/-- Claim C5: `getUpdates` returns, in column order, the CSV of
`escapedName '=' placeholder castSuffix` over the non-conditional columns
not skipped for this object (the skip predicate invoked with the object as
receiver and the effective property name); conditional columns' skip
predicates are never consulted (replacing them all changes nothing); and
the result is cached for the aggregate's lifetime exactly when no
non-conditional column defines a `skip` predicate — in that case every
later call returns the same string and leaves the cache unchanged
regardless of the object passed, while with such a predicate present the
cache is never populated and every call recomputes. -/
theorem getUpdates_behavior (cols : List Column) (o o' : JsObj) :
    ((getUpdates cols o "").1 =
      jsJoin ((cols.filter (fun c => !c.cnd && !skipTest c o)).map updAssign))
  ∧ (∀ g : Column → JsObj → String → Bool,
      getUpdatesOf (cols.map (fun c => if c.cnd then { c with skip := some (g c) } else c)) o =
        getUpdatesOf cols o)
  ∧ (hasDynamic cols = false →
      getUpdates cols o' ((getUpdates cols o "").2) =
        ((getUpdates cols o "").1, (getUpdates cols o "").2))
  ∧ (hasDynamic cols = true →
      getUpdates cols o "" = (getUpdatesOf cols o, "")) := by
  refine ⟨by simp [getUpdates, getUpdatesOf], fun g => ?_, fun hdyn => ?_, fun hdyn => ?_⟩
  · unfold getUpdatesOf
    rw [getUpdatesOf_filter_map_cnd]
  · have hval : getUpdates cols o "" = (getUpdatesOf cols o, getUpdatesOf cols o) := by
      simp [getUpdates, hdyn]
    rw [hval]
    by_cases hz : getUpdatesOf cols o = ""
    · simp [getUpdates, hz, hdyn, getUpdatesOf_no_dynamic cols o' o hdyn]
    · simp [getUpdates, hz]
  · simp [getUpdates, hdyn]

/-- A one-column set whose column carries a `skip` callback. -/
def colsC5 : List Column :=
  [{ name := "a", skip := some (fun _ _ => false) }]

theorem getUpdates_behavior_witness :
    getUpdates colsC5 [] "" = (getUpdatesOf colsC5 [], "") :=
  (getUpdates_behavior colsC5 [] []).2.2.2 rfl

/-- A fold that appends one constructed column per name, with the guard
always passing, is `mapE` of the constructor. -/
lemma foldlM_guard_true (f : String → Except String Column)
    (g : String → Bool) :
    ∀ (names : List String) (acc : List Column),
      (∀ n ∈ names, g n = true) →
      (names.foldlM
        (fun acc name =>
          if g name then
            ((match f name with
              | Except.ok c => Except.ok (acc ++ [c])
              | Except.error e => Except.error e) : Except String (List Column))
          else pure acc) acc) =
      (match mapE f names with
       | Except.ok cs => Except.ok (acc ++ cs)
       | Except.error e => Except.error e) := by
  intro names
  induction names with
  | nil =>
    intro acc _
    rw [List.foldlM_nil]
    simp only [mapE, List.append_nil]
    rfl
  | cons n t ih =>
    intro acc h
    rw [List.foldlM_cons, if_pos (h n (by simp))]
    cases hf : f n with
    | error e => simp [mapE, hf, errorBind]
    | ok c =>
      simp only [mapE, hf, okBind]
      rw [ih (acc ++ [c]) (fun x hx => h x (by simp [hx]))]
      cases ht : mapE f t <;> simp [ht, errorBind]

/-- A fold whose guard always fails leaves the accumulator untouched. -/
lemma foldlM_guard_false (f : String → Except String Column)
    (g : String → Bool) :
    ∀ (names : List String) (acc : List Column),
      (∀ n ∈ names, g n = false) →
      (names.foldlM
        (fun acc name =>
          if g name then
            ((match f name with
              | Except.ok c => Except.ok (acc ++ [c])
              | Except.error e => Except.error e) : Except String (List Column))
          else pure acc) acc) = pure acc := by
  intro names
  induction names with
  | nil =>
    intro acc _
    rw [List.foldlM_nil]
  | cons n t ih =>
    intro acc h
    rw [List.foldlM_cons, if_neg (by simp [h n (by simp)])]
    simp only [pure_bind]
    exact ih acc (fun x hx => h x (by simp [hx]))

/-- When every name maps to an `ok` column, `mapE` is the plain map. -/
lemma mapE_all_ok (f : String → Except String Column)
    (h : String → Column) :
    ∀ names : List String, (∀ n ∈ names, f n = .ok (h n)) →
      mapE f names = .ok (names.map h) := by
  intro names
  induction names with
  | nil => intro _; rfl
  | cons n t ih =>
    intro hall
    simp only [mapE, hall n (by simp), ih (fun x hx => hall x (by simp [hx])), List.map_cons]

/-- The column produced by parsing the property name `v^` of a plain
object. -/
def colC6 : Column :=
  { name := "v", mod := some "^" }

/-- Claim C6 counterexample: building a column set from a plain object
with the enumerable property name `v^` produces a descriptor whose name
(and effective property name) is `v`, not the source property name `v^`:
property names are parsed as string column specs, not copied verbatim. -/
theorem columnset_object_parses_names :
    columnSetOfObject ["v^"] [] false = .ok [colC6] ∧ colC6.effProp ≠ "v^" :=
  ⟨rfl, by decide⟩

/-- Claim C6 (amended): a column set built from a plain object has one
descriptor per enumerated property name — own names in insertion order,
then (only when `inherit` is set) unshadowed prototype names — each
obtained by parsing the name as a string column spec; in particular, when
every enumerated name parses to a plain same-named column, the descriptors
are same-named, same-prop, in enumeration order. -/
theorem columnset_object_enumeration (own proto : List String) (inherit : Bool) :
    (inherit = true →
      columnSetOfObject own proto inherit = mapE columnOfString (enumProps own proto))
  ∧ (inherit = false →
      columnSetOfObject own proto inherit = mapE columnOfString own)
  ∧ ((∀ n ∈ enumProps own proto, columnOfString n = .ok { name := n }) →
      columnSetOfObject own proto inherit =
        .ok ((if inherit then enumProps own proto else own).map
          (fun n => { name := n }))) := by
  have htrue : columnSetOfObject own proto true = mapE columnOfString (enumProps own proto) := by
    have h1 := foldlM_guard_true columnOfString
      (fun name => true || own.contains name) (enumProps own proto) []
      (fun n _ => by simp)
    refine Eq.trans h1 ?_
    cases hm : mapE columnOfString (enumProps own proto) <;> simp
  have hfalse : columnSetOfObject own proto false = mapE columnOfString own := by
    have hsplit :
        columnSetOfObject own proto false =
          (own.foldlM
            (fun acc name =>
              if false || own.contains name then
                ((match columnOfString name with
                  | Except.ok c => Except.ok (acc ++ [c])
                  | Except.error e => Except.error e) : Except String (List Column))
              else pure acc) []) >>= fun acc2 =>
          ((proto.filter (fun n => !own.contains n)).foldlM
            (fun acc name =>
              if false || own.contains name then
                ((match columnOfString name with
                  | Except.ok c => Except.ok (acc ++ [c])
                  | Except.error e => Except.error e) : Except String (List Column))
              else pure acc) acc2) :=
      List.foldlM_append _ _ own (proto.filter (fun n => !own.contains n))
    rw [hsplit]
    rw [foldlM_guard_true columnOfString
      (fun name => false || own.contains name) own []
      (fun n hn => by simpa using List.elem_iff.mpr hn)]
    cases hm : mapE columnOfString own with
    | error e => simp [hm, errorBind]
    | ok cs =>
      simp only [hm, List.nil_append, okBind]
      exact foldlM_guard_false columnOfString _ _ cs
        (fun n hn => by
          have := List.mem_filter.mp hn
          simpa using this.2)
  refine ⟨fun h => by rw [h]; exact htrue, fun h => by rw [h]; exact hfalse, fun hall => ?_⟩
  cases inherit
  · rw [hfalse, mapE_all_ok columnOfString (fun n => { name := n }) own
      (fun n hn => hall n (by simp [enumProps, hn]))]
    simp
  · rw [htrue, mapE_all_ok columnOfString (fun n => { name := n })
      (enumProps own proto) hall]
    simp

theorem columnset_object_enumeration_witness :
    columnSetOfObject ["a", "b"] [] true =
      .ok ((if true then enumProps ["a", "b"] [] else ["a", "b"]).map
        (fun n => { name := n })) :=
  (columnset_object_enumeration ["a", "b"] [] true).2.2
    (fun n hn => by fin_cases hn <;> rfl)

/-- Claim C7: array data without an explicit (non-null) `columns`
argument fails with the columns-required fault regardless of the array's
contents — including the empty array, where it wins over the empty-array
fault; an empty array with columns supplied (an aggregate instance, or a
spec the constructor accepts) fails with the empty-array fault; and when
no table can be resolved from the argument or the aggregate's default,
the call fails with `Table name is unknown.`.  Each fault is returned as
the call's entire result. -/
theorem update_fault_order :
    (∀ (elems : List JsValue) (v : JsValue) (tp : TParam) (opts : OParam)
        (cap : Bool) (fmt : String → JsObj → String),
      isNullJ v = true →
      update (.arr elems) (.val v) tp opts cap fmt =
        .error "Parameter 'columns' is required when updating multiple records.")
  ∧ (∀ (cs : CSet) (tp : TParam) (opts : OParam) (cap : Bool)
        (fmt : String → JsObj → String),
      update (.arr []) (.inst cs) tp opts cap fmt =
        .error "Cannot generate an UPDATE from an empty array.")
  ∧ (∀ (v : JsValue) (cols : List Column) (tp : TParam) (opts : OParam)
        (cap : Bool) (fmt : String → JsObj → String),
      isNullJ v = false →
      mkColumnSetCols (if jsTruthy v then v else .arr []) = .ok cols →
      update (.arr []) (.val v) tp opts cap fmt =
        .error "Cannot generate an UPDATE from an empty array.")
  ∧ (∀ (data : JsValue) (cs : CSet) (opts : OParam) (cap : Bool)
        (fmt : String → JsObj → String),
      isNonNullObject data = true →
      (match data with | .arr l => l ≠ [] | _ => True) →
      cs.table = none →
      opts ≠ OParam.badO →
      update data (.inst cs) (.val .jnull) opts cap fmt =
        .error "Table name is unknown.") := by
  refine ⟨fun elems v tp opts cap fmt hv => ?_, fun cs tp opts cap fmt => ?_,
    fun v cols tp opts cap fmt hv hmk => ?_,
    fun data cs opts cap fmt hobj hne htab hopts => ?_⟩
  · simp [update, hv, errorBind, throwBind, jsTruthy, isNonNullObject]
  · simp [update, jsTruthy, isNonNullObject, okBind, throwBind]
  · simp only [update, hv, hmk, okBind, errorBind, throwBind, Bool.and_false,
      Bool.false_eq_true, if_false]
    simp [throwBind]
    exact ⟨rfl, rfl⟩
  · have hopts' : (match opts with | OParam.badO => true | _ => false) = false := by
      cases opts
      · rfl
      · rfl
      · exact absurd rfl hopts
    have hres : resolveTable (effTableParam cs (.val .jnull)) =
        .error "Table name is unknown." := by
      simp [resolveTable, effTableParam, isNullT, isNullJ, htab, falsyT, jsTruthy]
    cases data with
    | arr l =>
      have hl : decide (l.length = 0) = false := by
        simp only [decide_eq_false_iff_not]
        simpa using hne
      simp [update, jsTruthy, isNonNullObject, okBind, errorBind, throwBind, hopts', hres, hl]
    | obj o =>
      simp [update, jsTruthy, isNonNullObject, okBind, errorBind, throwBind, hopts', hres]
    | undefined => exact absurd hobj (by simp [isNonNullObject])
    | jnull => exact absurd hobj (by simp [isNonNullObject])
    | bool b => exact absurd hobj (by simp [isNonNullObject])
    | num n => exact absurd hobj (by simp [isNonNullObject])
    | str s => exact absurd hobj (by simp [isNonNullObject])

theorem update_fault_order_witness :
    update (.arr [.obj []]) (.val .jnull) (.val (.str "tbl")) .noneO false
        (fun _ _ => "") =
      .error "Parameter 'columns' is required when updating multiple records." :=
  update_fault_order.1 [.obj []] .jnull (.val (.str "tbl")) .noneO false
    (fun _ _ => "") rfl

/-- Claim C8: `TableName` construction fails with a `TypeError` whenever
the effective table value is not a non-empty string, and whenever a
present (non-null) schema is not a string; an empty-string schema is
treated as absent; the precomputed qualified name is the escaped schema,
a dot, and the escaped table when a schema is set, else just the escaped
table; and the record form `{table, schema}` ignores a separately-passed
schema argument. -/
theorem tableName_construction :
    (∀ (v sch : JsValue), isText v = false →
      (∀ o, v = .obj o → lookupProp o "table" = none) →
      tableNameOf v sch = .error "Table name must be non-empty text string.")
  ∧ (∀ (t : String) (sch : JsValue), t ≠ "" → isNullJ sch = false →
      (∀ s, sch ≠ .str s) →
      tableNameOf (.str t) sch = .error "Invalid schema name.")
  ∧ (∀ t : String, t ≠ "" →
      tableNameOf (.str t) (.str "") = .ok ⟨t, none, asName t⟩)
  ∧ (∀ (t s : String), t ≠ "" → s ≠ "" →
      tableNameOf (.str t) (.str s) = .ok ⟨t, some s, asName s ++ "." ++ asName t⟩)
  ∧ (∀ (t : String) (sch : JsValue), t ≠ "" → isNullJ sch = true →
      tableNameOf (.str t) sch = .ok ⟨t, none, asName t⟩)
  ∧ (∀ (o : JsObj) (sch sch' : JsValue), (lookupProp o "table").isSome = true →
      tableNameOf (.obj o) sch = tableNameOf (.obj o) sch') := by
  refine ⟨fun v sch hv hrec => ?_, fun t sch ht hnn hns => ?_, fun t ht => ?_,
    fun t s ht hs => ?_, fun t sch ht hn => ?_, fun o sch sch' hso => ?_⟩
  · cases v with
    | str s =>
      have hs : s = "" := by simpa [isText] using hv
      subst hs
      simp [tableNameOf]
    | obj o =>
      have := hrec o rfl
      simp [tableNameOf, this]
    | undefined => rfl
    | jnull => rfl
    | bool b => rfl
    | num n => rfl
    | arr l => rfl
  · cases sch with
    | str s => exact absurd rfl (hns s)
    | jnull => simp [isNullJ] at hnn
    | undefined => simp [isNullJ] at hnn
    | bool b => simp [tableNameOf, ht, isNullJ]
    | num n => simp [tableNameOf, ht, isNullJ]
    | obj o => simp [tableNameOf, ht, isNullJ]
    | arr l => simp [tableNameOf, ht, isNullJ]
  · simp [tableNameOf, ht]
  · have hl : s.length > 0 := by
      cases hsd : s.data with
      | nil => exact absurd (String.ext hsd) hs
      | cons c t2 =>
        have : s.length = s.data.length := rfl
        rw [this, hsd]
        simp
    simp [tableNameOf, ht, hl, isNullJ]
  · cases sch with
    | jnull => simp [tableNameOf, ht, isNullJ]
    | undefined => simp [tableNameOf, ht, isNullJ]
    | bool b => simp [isNullJ] at hn
    | num n => simp [isNullJ] at hn
    | str s => simp [isNullJ] at hn
    | obj o => simp [isNullJ] at hn
    | arr l => simp [isNullJ] at hn
  · simp [tableNameOf, hso]

theorem tableName_construction_witness :
    tableNameOf (.str "tbl") (.str "s") =
      .ok ⟨"tbl", some "s", asName "s" ++ "." ++ asName "tbl"⟩ :=
  tableName_construction.2.2.2.1 "tbl" "s" (by decide) (by decide)

/-- A left factor that is non-empty makes the whole append non-empty. -/
lemma append_ne_left (a b : String) (h : a ≠ "") : a ++ b ≠ "" := by
  intro hab
  apply h
  apply String.ext
  have hd := congrArg String.data hab
  rw [String.data_append] at hd
  exact (List.append_eq_nil.mp hd).1

/-- Escaped identifiers are never empty. -/
lemma asName_ne (s : String) : asName s ≠ "" :=
  append_ne_left _ _ (append_ne_left "\"" _ (by decide))

/-- Placeholders are never empty. -/
lemma variableText_ne (c : Column) : c.variableText ≠ "" := by
  unfold Column.variableText
  exact append_ne_left _ _ (append_ne_left _ _ (append_ne_left "$\x7b" _ (by decide)))

/-- A join headed by a non-empty string is non-empty. -/
lemma jsJoin_cons_ne (x : String) (xs : List String) (h : x ≠ "") :
    jsJoin (x :: xs) ≠ "" := by
  cases xs with
  | nil => exact h
  | cons y t => exact append_ne_left _ _ (append_ne_left x "," h)

/-- Claim C9: the `names` accessor yields the parenthesized CSV of the
escaped column names — and the bare empty string when the set has no
columns; the `variables` accessor yields the CSV of every column's
placeholder in column order, conditional columns included; and both are
computed on first access and cached for the aggregate's lifetime: a second
access returns the same value and leaves the cache unchanged. -/
theorem names_variables_cached (cols : List Column) :
    (cols = [] → (namesGet cols "").1 = "")
  ∧ (cols ≠ [] →
      (namesGet cols "").1 = "(" ++ jsJoin (cols.map Column.escapedName) ++ ")")
  ∧ ((variablesGet cols "").1 = jsJoin (cols.map Column.variableText))
  ∧ (namesGet cols ((namesGet cols "").2) = namesGet cols "")
  ∧ (variablesGet cols ((variablesGet cols "").2) = variablesGet cols "") := by
  refine ⟨fun h => by subst h; rfl, fun h => ?_, by simp [variablesGet, variablesOf], ?_, ?_⟩
  · obtain ⟨c, t, rfl⟩ : ∃ c t, cols = c :: t := by
      cases cols with
      | nil => exact absurd rfl h
      | cons c t => exact ⟨c, t, rfl⟩
    have hne : jsJoin ((c :: t).map Column.escapedName) ≠ "" :=
      jsJoin_cons_ne _ _ (asName_ne c.name)
    simp only [namesGet, namesOf, List.map_cons] at hne ⊢
    simp [hne]
  · cases cols with
    | nil => rfl
    | cons c t =>
      have hne : jsJoin ((c :: t).map Column.escapedName) ≠ "" :=
        jsJoin_cons_ne _ _ (asName_ne c.name)
      have hval : namesGet (c :: t) "" =
          (namesOf (c :: t), namesOf (c :: t)) := by
        simp [namesGet]
      have hnv : namesOf (c :: t) ≠ "" := by
        unfold namesOf
        simp only [hne, if_neg hne]
        exact append_ne_left _ _ (append_ne_left "(" _ (by decide))
      rw [hval]
      simp [namesGet, hnv]
  · cases cols with
    | nil => rfl
    | cons c t =>
      have hne : jsJoin ((c :: t).map Column.variableText) ≠ "" :=
        jsJoin_cons_ne _ _ (variableText_ne c)
      have hval : variablesGet (c :: t) "" =
          (variablesOf (c :: t), variablesOf (c :: t)) := by
        simp [variablesGet]
      have hnv : variablesOf (c :: t) ≠ "" := hne
      rw [hval]
      simp [variablesGet, hnv]

theorem names_variables_cached_witness :
    (namesGet ([{ name := "a" }] : List Column) "").1 =
      "(" ++ jsJoin (([{ name := "a" }] : List Column).map Column.escapedName) ++ ")" :=
  (names_variables_cached [{ name := "a" }]).2.1 (by simp)

end PgHelpers
